import Mathlib

/-!
Verification of the mesh-deduplication core of the OpenGEX Blender exporter
(`__init__.py`): the `ExportVertex` data model, the deindexer `DeindexMesh`,
and the vertex unifier `UnifyVertices` / `FindExportVertex`.

The embedding is polymorphic in the scalar type `α` (the host uses Python
floats); `hs : α → Int` stands for the platform value hash of one scalar.
Python integers are unbounded, so vertex hashes are modelled as `Int`.
List indexing is total via `getD` with an `Inhabited` default; the explicit
triangulation asserts of the source are modelled as `Option` failure.
The source mutates caller-owned output lists in place; here those outputs
are returned by value, which the design notes sanction as behaviourally
identical.
-/

namespace BlenderExporter

/-- A 3-component vector, as used for positions, normals, tangents and colors. -/
structure Vec3 (α : Type) where
  x : α
  y : α
  z : α
deriving DecidableEq, Inhabited

/-- A 2-component vector, as used for texture coordinates. -/
structure Vec2 (α : Type) where
  u : α
  v : α
deriving DecidableEq, Inhabited

/-- One vertex record per triangle corner, mirroring the `ExportVertex`
class of the source (`__slots__`: hash, vertexIndex, faceIndex, position,
normal, tangent, color, texcoord0, texcoord1). The `hash` field is 0 until
`Hash` is applied, mirroring the unset slot of the Python object. -/
structure ExportVertex (α : Type) where
  hash : Int := 0
  vertexIndex : Nat := 0
  faceIndex : Nat := 0
  position : Vec3 α
  normal : Vec3 α
  tangent : Vec3 α
  color : Vec3 α
  texcoord0 : Vec2 α
  texcoord1 : Vec2 α
deriving DecidableEq, Inhabited

variable {α : Type} [DecidableEq α] [Inhabited α]

/-- The `__eq__` method of `ExportVertex`: an early-out chain that compares
`hash`, `position`, `normal`, `tangent`, `color`, `texcoord0`, `texcoord1`
(and nothing else). -/
def ExportVertex.eq (self v : ExportVertex α) : Bool :=
  if self.hash ≠ v.hash then false
  else if self.position ≠ v.position then false
  else if self.normal ≠ v.normal then false
  else if self.tangent ≠ v.tangent then false
  else if self.color ≠ v.color then false
  else if self.texcoord0 ≠ v.texcoord0 then false
  else if self.texcoord1 ≠ v.texcoord1 then false
  else true

/-- The `Hash` method of `ExportVertex`: a polynomial accumulator with
multiplier 21737 over the scalar hashes of position.xyz, normal.xyz,
tangent.xyz, color.rgb, texcoord0.uv, texcoord1.uv, stored into `hash`. -/
def ExportVertex.Hash (hs : α → Int) (self : ExportVertex α) : ExportVertex α :=
  let h := hs self.position.x
  let h := h * 21737 + hs self.position.y
  let h := h * 21737 + hs self.position.z
  let h := h * 21737 + hs self.normal.x
  let h := h * 21737 + hs self.normal.y
  let h := h * 21737 + hs self.normal.z
  let h := h * 21737 + hs self.tangent.x
  let h := h * 21737 + hs self.tangent.y
  let h := h * 21737 + hs self.tangent.z
  let h := h * 21737 + hs self.color.x
  let h := h * 21737 + hs self.color.y
  let h := h * 21737 + hs self.color.z
  let h := h * 21737 + hs self.texcoord0.u
  let h := h * 21737 + hs self.texcoord0.v
  let h := h * 21737 + hs self.texcoord1.u
  let h := h * 21737 + hs self.texcoord1.v
  { self with hash := h }

/-- Full attribute equality of two export vertices: equality of every
geometric attribute that `ExportVertex.eq` compares, ignoring the cached
`hash` (and the `vertexIndex` / `faceIndex` bookkeeping fields, which
`__eq__` never reads). -/
def attrEq (a b : ExportVertex α) : Bool :=
  decide (a.position = b.position ∧ a.normal = b.normal ∧ a.tangent = b.tangent ∧
    a.color = b.color ∧ a.texcoord0 = b.texcoord0 ∧ a.texcoord1 = b.texcoord1)

/-- The hashes of the list have all been computed from the attributes
(the state of the array after `DeindexMesh`'s final hashing pass). -/
def HashesComputed (hs : α → Int) (exportVertexArray : List (ExportVertex α)) : Prop :=
  ∀ v ∈ exportVertexArray, v.hash = (v.Hash hs).hash

instance (hs : α → Int) (exportVertexArray : List (ExportVertex α)) :
    Decidable (HashesComputed hs exportVertexArray) :=
  inferInstanceAs (Decidable (∀ v ∈ exportVertexArray, v.hash = (v.Hash hs).hash))

/-- `FindExportVertex(bucket, exportVertexArray, vertex)`: scan the bucket
(a list of expanded-sequence indices) and return the first index whose
vertex compares `__eq__`-equal to `vertex`, or `-1`. -/
def FindExportVertex (bucket : List Nat) (exportVertexArray : List (ExportVertex α))
    (vertex : ExportVertex α) : Int :=
  match bucket with
  | [] => -1
  | index :: rest =>
      if (exportVertexArray.getD index default).eq vertex then (index : Int)
      else FindExportVertex rest exportVertexArray vertex

/-- The `while True` loop of `UnifyVertices`: repeatedly clear the lowest
set bit (`count = bucketCount & (bucketCount - 1)`) until a power of two
remains. -/
def roundDownPow2 (bucketCount : Nat) : Nat :=
  if h : bucketCount &&& (bucketCount - 1) = 0 then bucketCount
  else roundDownPow2 (bucketCount &&& (bucketCount - 1))
termination_by bucketCount
decreasing_by
  have hb : bucketCount ≠ 0 := by
    intro h0
    rw [h0] at h
    exact h rfl
  calc bucketCount &&& (bucketCount - 1) ≤ bucketCount - 1 := Nat.and_le_right
    _ < bucketCount := Nat.sub_lt (Nat.pos_of_ne_zero hb) one_pos

/-- Bucket-count selection of `UnifyVertices`: `bucketCount = n >> 3`,
rounded down to the nearest power of two when greater than 1, else 1. -/
def bucketCountOf (n : Nat) : Nat :=
  let bucketCount := n >>> 3
  if bucketCount > 1 then roundDownPow2 bucketCount else 1

/-- Bucket selection of `UnifyVertices`: `ev.hash & (bucketCount - 1)`,
with Python's two's-complement bitwise `&` on unbounded integers
(`Int.land`); the result is a nonnegative list index. -/
def bucketIndex (bucketCount : Nat) (h : Int) : Nat :=
  (Int.land h ((bucketCount : Int) - 1)).toNat

/-- The mutable state of the `UnifyVertices` loop. -/
structure UnifyState (α : Type) where
  hashTable : List (List Nat)
  unifiedVertexArray : List (ExportVertex α)
  indexTable : List Nat

/-- One iteration of the `for i in range(len(exportVertexArray))` loop of
`UnifyVertices`. -/
def unifyStep (exportVertexArray : List (ExportVertex α)) (bucketCount : Nat)
    (s : UnifyState α) (i : Nat) : UnifyState α :=
  let ev := exportVertexArray.getD i default
  let bucket := bucketIndex bucketCount ev.hash
  let index := FindExportVertex (s.hashTable.getD bucket []) exportVertexArray ev
  if index < 0 then
    { hashTable := s.hashTable.set bucket (s.hashTable.getD bucket [] ++ [i]),
      unifiedVertexArray := s.unifiedVertexArray ++ [ev],
      indexTable := s.indexTable ++ [s.unifiedVertexArray.length] }
  else
    { s with indexTable := s.indexTable ++ [s.indexTable.getD index.toNat 0] }

/-- `UnifyVertices(exportVertexArray, indexTable)`: hash-bucketed
deduplication. Returns the unified vertex array together with the final
contents of the caller's `indexTable` (the source appends to the caller's
list in place and returns only the unified array). -/
def UnifyVertices (exportVertexArray : List (ExportVertex α)) (indexTable : List Nat) :
    List (ExportVertex α) × List Nat :=
  let bucketCount := bucketCountOf exportVertexArray.length
  let init : UnifyState α :=
    { hashTable := List.replicate bucketCount [], unifiedVertexArray := [], indexTable := indexTable }
  let final := (List.range exportVertexArray.length).foldl (unifyStep exportVertexArray bucketCount) init
  (final.unifiedVertexArray, final.indexTable)

/-- First index of an entry of `unified` that is attribute-equal to `v`,
if any. Reference helper for the specification-level deduplicator. -/
def firstMatch (unified : List (ExportVertex α)) (v : ExportVertex α) : Option Nat :=
  match unified with
  | [] => none
  | u :: rest => if attrEq u v then some 0 else (firstMatch rest v).map (· + 1)

/-- One step of the specification-level deduplicator. -/
def specUnifyStep (acc : List (ExportVertex α) × List Nat) (ev : ExportVertex α) :
    List (ExportVertex α) × List Nat :=
  match firstMatch acc.1 ev with
  | some k => (acc.1, acc.2 ++ [k])
  | none => (acc.1 ++ [ev], acc.2 ++ [acc.1.length])

/-- Modelled from the spec: the first-occurrence deduplicator it describes.
Traverse the expanded sequence in order; an attribute-equal duplicate of an
earlier vertex maps to the unique-sequence index of its earliest
attribute-equal occurrence, and a fresh vertex is appended to the unique
sequence, which therefore lists vertices in order of first appearance. -/
def specUnify (exportVertexArray : List (ExportVertex α)) :
    List (ExportVertex α) × List Nat :=
  exportVertexArray.foldl specUnifyStep ([], [])

/-- A mesh vertex as read by the deindexer: position `co` and vertex normal. -/
structure MeshVertex (α : Type) where
  co : Vec3 α
  normal : Vec3 α
deriving Inhabited

/-- A mesh loop (face corner); the deindexer reads only its tangent. -/
structure MeshLoop (α : Type) where
  tangent : Vec3 α
deriving Inhabited

/-- A mesh polygon as read by the deindexer: vertex indices, loop indices,
smooth flag, face normal and material slot. -/
structure Polygon (α : Type) where
  vertices : List Nat
  loop_indices : List Nat
  use_smooth : Bool
  normal : Vec3 α
  material_index : Nat
deriving Inhabited

/-- One triangle's worth of a vertex-color layer: one color per corner. -/
structure ColorFaceData (α : Type) where
  color1 : Vec3 α
  color2 : Vec3 α
  color3 : Vec3 α
deriving Inhabited

/-- A vertex-color layer. -/
structure ColorLayer (α : Type) where
  data : List (ColorFaceData α)
deriving Inhabited

/-- One entry of a UV layer: the 2D coordinate of one loop. -/
structure UVDatum (α : Type) where
  uv : Vec2 α
deriving Inhabited

/-- A UV-coordinate layer, indexed by loop index. -/
structure UVLayer (α : Type) where
  data : List (UVDatum α)
deriving Inhabited

/-- A triangulated sub-face: the loop indices of its three corners. -/
structure LoopTriangle where
  loops : List Nat
deriving Inhabited

/-- The slice of the host mesh that `DeindexMesh` consumes. -/
structure Mesh (α : Type) where
  vertices : List (MeshVertex α)
  polygons : List (Polygon α)
  loops : List (MeshLoop α)
  vertex_colors : List (ColorLayer α)
  uv_layers : List (UVLayer α)
  loop_triangles : List LoopTriangle

/-- The body of the `for face in mesh.polygons` loop of `DeindexMesh`:
emit the face's three corner vertices. The `assert(len(face.vertices) == 3)`
is modelled as `none`. Color and texture coordinates keep the `__init__`
defaults (white and zero); they are filled by later passes. -/
def deindexFace [Zero α] [One α] (mesh : Mesh α) (faceIndex : Nat) (face : Polygon α) :
    Option (List (ExportVertex α)) :=
  if face.vertices.length = 3 then
    let l1 := mesh.loops.getD (face.loop_indices.getD 0 0) default
    let l2 := mesh.loops.getD (face.loop_indices.getD 1 0) default
    let l3 := mesh.loops.getD (face.loop_indices.getD 2 0) default
    let k1 := face.vertices.getD 0 0
    let k2 := face.vertices.getD 1 0
    let k3 := face.vertices.getD 2 0
    let v1 := mesh.vertices.getD k1 default
    let v2 := mesh.vertices.getD k2 default
    let v3 := mesh.vertices.getD k3 default
    some [
      { vertexIndex := k1, faceIndex := faceIndex, position := v1.co,
        normal := if face.use_smooth then v1.normal else face.normal,
        tangent := l1.tangent, color := ⟨1, 1, 1⟩,
        texcoord0 := ⟨0, 0⟩, texcoord1 := ⟨0, 0⟩ },
      { vertexIndex := k2, faceIndex := faceIndex, position := v2.co,
        normal := if face.use_smooth then v2.normal else face.normal,
        tangent := l2.tangent, color := ⟨1, 1, 1⟩,
        texcoord0 := ⟨0, 0⟩, texcoord1 := ⟨0, 0⟩ },
      { vertexIndex := k3, faceIndex := faceIndex, position := v3.co,
        normal := if face.use_smooth then v3.normal else face.normal,
        tangent := l3.tangent, color := ⟨1, 1, 1⟩,
        texcoord0 := ⟨0, 0⟩, texcoord1 := ⟨0, 0⟩ }]
  else none

/-- The first pass of `DeindexMesh`: three corners per polygon, one
material index per polygon, with a running `faceIndex` counter. -/
def deindexFaces [Zero α] [One α] (mesh : Mesh α) :
    Nat → List (Polygon α) → Option (List (ExportVertex α) × List Nat)
  | _, [] => some ([], [])
  | faceIndex, face :: rest =>
      match deindexFace mesh faceIndex face with
      | none => none
      | some evs =>
          match deindexFaces mesh (faceIndex + 1) rest with
          | none => none
          | some (eva, mt) => some (evs ++ eva, face.material_index :: mt)

/-- The body of the color pass of `DeindexMesh` for triangle `t`: write the
layer's three corner colors into the entries at positions `3t`, `3t+1`,
`3t+2` of the expanded array. -/
def applyColorsTri (colorFace : List (ColorFaceData α)) (arr : List (ExportVertex α))
    (t : Nat) : List (ExportVertex α) :=
  let cf := colorFace.getD t default
  let arr := arr.set (3 * t) { arr.getD (3 * t) default with color := cf.color1 }
  let arr := arr.set (3 * t + 1) { arr.getD (3 * t + 1) default with color := cf.color2 }
  let arr := arr.set (3 * t + 2) { arr.getD (3 * t + 2) default with color := cf.color3 }
  arr

/-- The color pass of `DeindexMesh`: one `ColorFaceData` per loop triangle,
walking the expanded array three entries at a time. -/
def applyColors (colorFace : List (ColorFaceData α)) (numTris : Nat)
    (arr : List (ExportVertex α)) : List (ExportVertex α) :=
  (List.range numTris).foldl (applyColorsTri colorFace) arr

/-- Inner body of the UV pass: write `texcoord0` (and `texcoord1` when a
second layer exists) of the entry at position `vi` from the loop at
`loop_index`. -/
def setTexcoords (mesh : Mesh α) (arr : List (ExportVertex α)) (vi : Nat)
    (loop_index : Nat) : List (ExportVertex α) :=
  let ev := arr.getD vi default
  let ev := { ev with
    texcoord0 := ((mesh.uv_layers.getD 0 default).data.getD loop_index default).uv }
  let ev := if mesh.uv_layers.length > 1 then
    { ev with
      texcoord1 := ((mesh.uv_layers.getD 1 default).data.getD loop_index default).uv }
    else ev
  arr.set vi ev

/-- One loop triangle of the UV pass, with its `assert(len(tri.loops) == 3)`
modelled as `none`; threads the running `vertexIndex` counter. -/
def applyUVsTri (mesh : Mesh α) (acc : List (ExportVertex α) × Nat) (tri : LoopTriangle) :
    Option (List (ExportVertex α) × Nat) :=
  if tri.loops.length = 3 then
    some (tri.loops.foldl
      (fun (p : List (ExportVertex α) × Nat) loop_index =>
        (setTexcoords mesh p.1 p.2 loop_index, p.2 + 1)) acc)
  else none

/-- The `for tri in mesh.loop_triangles` loop of the UV pass. -/
def applyUVsTris (mesh : Mesh α) :
    List LoopTriangle → List (ExportVertex α) × Nat → Option (List (ExportVertex α) × Nat)
  | [], acc => some acc
  | tri :: rest, acc =>
      match applyUVsTri mesh acc tri with
      | none => none
      | some acc2 => applyUVsTris mesh rest acc2

/-- The UV pass of `DeindexMesh`: runs only when at least one UV layer is
present. -/
def applyUVs (mesh : Mesh α) (arr : List (ExportVertex α)) :
    Option (List (ExportVertex α)) :=
  if mesh.uv_layers.length > 0 then
    match applyUVsTris mesh mesh.loop_triangles (arr, 0) with
    | none => none
    | some acc => some acc.1
  else some arr

/-- `DeindexMesh(mesh, materialTable)`: expand the indexed mesh into one
`ExportVertex` per triangle corner, apply the color and UV passes, then
hash every vertex in a final pass. Returns the expanded array together
with the material table (the source appends the latter to a caller-owned
list). `hs` models the platform scalar hash used by `ExportVertex.Hash`. -/
def DeindexMesh [Zero α] [One α] (hs : α → Int) (mesh : Mesh α) :
    Option (List (ExportVertex α) × List Nat) :=
  match deindexFaces mesh 0 mesh.polygons with
  | none => none
  | some (eva0, materialTable) =>
      let eva1 := if mesh.vertex_colors.length > 0 then
        applyColors (mesh.vertex_colors.getD 0 default).data mesh.loop_triangles.length eva0
        else eva0
      match applyUVs mesh eva1 with
      | none => none
      | some eva2 => some (eva2.map (ExportVertex.Hash hs), materialTable)

/-- `arr2` has the same length as `arr1` and the same normal at every
position (the color, UV and hashing passes only touch other fields). -/
def NormalsMatch (arr2 arr1 : List (ExportVertex α)) : Prop :=
  arr2.length = arr1.length ∧
  ∀ p, (arr2.getD p default).normal = (arr1.getD p default).normal

/-- `j` is the position of a first occurrence in the expanded array: no
strictly earlier entry is attribute-equal to the entry at `j`. -/
def firstOcc (eva : List (ExportVertex α)) (j : Nat) : Bool :=
  (List.range j).all (fun j2 => !(attrEq (eva.getD j2 default) (eva.getD j default)))

/-- The positions of the first occurrences among the first `i` entries, in
increasing order. -/
def occList (eva : List (ExportVertex α)) (i : Nat) : List Nat :=
  (List.range i).filter (firstOcc eva)

/-- The specification-level deduplicator run on the first `i` entries. -/
def specAt (eva : List (ExportVertex α)) (i : Nat) : List (ExportVertex α) × List Nat :=
  (eva.take i).foldl specUnifyStep ([], [])

/-- The `UnifyVertices` loop state after the first `i` iterations, starting
from an empty index table. -/
def stateAt (eva : List (ExportVertex α)) (i : Nat) : UnifyState α :=
  (List.range i).foldl (unifyStep eva (bucketCountOf eva.length))
    { hashTable := List.replicate (bucketCountOf eva.length) [],
      unifiedVertexArray := [], indexTable := [] }

/-- Position, within a list of expanded-array indices, of the first index
whose vertex is attribute-equal to `ev`. -/
def firstIdxMatch (eva : List (ExportVertex α)) (ev : ExportVertex α) :
    List Nat → Option Nat
  | [] => none
  | j :: rest =>
      if attrEq (eva.getD j default) ev then some 0
      else (firstIdxMatch eva ev rest).map (· + 1)

/-- A sample vertex over `Int` scalars, for concrete witnesses. -/
def sampleVertex (p : Int) (vi : Nat) : ExportVertex Int :=
  { vertexIndex := vi, position := ⟨p, 0, 0⟩, normal := ⟨0, 0, 1⟩, tangent := ⟨1, 0, 0⟩,
    color := ⟨1, 1, 1⟩, texcoord0 := ⟨0, 0⟩, texcoord1 := ⟨0, 0⟩ }

/-- Concrete hashed vertex with `vertexIndex = 0`. -/
def cexA : ExportVertex Int := (sampleVertex 5 0).Hash (fun x => x)

/-- Concrete hashed vertex with the same attributes as `cexA` but
`vertexIndex = 1`. -/
def cexB : ExportVertex Int := (sampleVertex 5 1).Hash (fun x => x)

/-- A concrete expanded array with duplicates, for witnesses. -/
def sampleArray : List (ExportVertex Int) :=
  ([sampleVertex 5 0, sampleVertex 7 1, sampleVertex 5 2, sampleVertex 9 3,
    sampleVertex 7 4, sampleVertex 5 5]).map (ExportVertex.Hash (fun x => x))

/-- A concrete one-triangle flat-shaded mesh, for witnesses. -/
def flatMesh : Mesh Int :=
  { vertices := [⟨⟨0, 0, 0⟩, ⟨1, 0, 0⟩⟩, ⟨⟨1, 0, 0⟩, ⟨0, 1, 0⟩⟩, ⟨⟨0, 1, 0⟩, ⟨0, 0, 1⟩⟩],
    polygons := [⟨[0, 1, 2], [0, 1, 2], false, ⟨0, 0, 7⟩, 0⟩],
    loops := [⟨⟨1, 0, 0⟩⟩, ⟨⟨1, 0, 0⟩⟩, ⟨⟨1, 0, 0⟩⟩],
    vertex_colors := [],
    uv_layers := [],
    loop_triangles := [⟨[0, 1, 2]⟩] }

/-- The expanded vertex array of `flatMesh`. -/
def flatEva : List (ExportVertex Int) :=
  ((DeindexMesh (fun x => x) flatMesh).getD ([], [])).1

/-- The material table of `flatMesh`. -/
def flatMat : List Nat :=
  ((DeindexMesh (fun x => x) flatMesh).getD ([], [])).2

/-- A concrete mesh with zero faces, for witnesses. -/
def emptyMesh : Mesh Int :=
  { vertices := [⟨⟨0, 0, 0⟩, ⟨1, 0, 0⟩⟩],
    polygons := [],
    loops := [],
    vertex_colors := [⟨[]⟩],
    uv_layers := [⟨[]⟩],
    loop_triangles := [] }

end BlenderExporter

set_option linter.unusedSectionVars false

namespace BlenderExporter

variable {α : Type} [DecidableEq α] [Inhabited α]

theorem attrEq_iff {a b : ExportVertex α} :
    attrEq a b = true ↔ (a.position = b.position ∧ a.normal = b.normal ∧
      a.tangent = b.tangent ∧ a.color = b.color ∧ a.texcoord0 = b.texcoord0 ∧
      a.texcoord1 = b.texcoord1) := by
  simp [attrEq]

theorem attrEq_refl (a : ExportVertex α) : attrEq a a = true := by
  simp [attrEq]

theorem attrEq_symm {a b : ExportVertex α} (h : attrEq a b = true) : attrEq b a = true := by
  rw [attrEq_iff] at h ⊢
  obtain ⟨h1, h2, h3, h4, h5, h6⟩ := h
  exact ⟨h1.symm, h2.symm, h3.symm, h4.symm, h5.symm, h6.symm⟩

theorem attrEq_trans {a b c : ExportVertex α} (hab : attrEq a b = true)
    (hbc : attrEq b c = true) : attrEq a c = true := by
  rw [attrEq_iff] at hab hbc ⊢
  obtain ⟨h1, h2, h3, h4, h5, h6⟩ := hab
  obtain ⟨g1, g2, g3, g4, g5, g6⟩ := hbc
  exact ⟨h1.trans g1, h2.trans g2, h3.trans g3, h4.trans g4, h5.trans g5, h6.trans g6⟩

theorem eq_true_iff {a b : ExportVertex α} :
    ExportVertex.eq a b = true ↔ (a.hash = b.hash ∧ attrEq a b = true) := by
  rw [attrEq_iff]
  constructor
  · intro h
    simp only [ExportVertex.eq] at h
    split_ifs at h with h1 h2 h3 h4 h5 h6 h7
    push_neg at h1 h2 h3 h4 h5 h6 h7
    exact ⟨h1, h2, h3, h4, h5, h6, h7⟩
  · rintro ⟨h1, h2, h3, h4, h5, h6, h7⟩
    simp [ExportVertex.eq, h1, h2, h3, h4, h5, h6, h7]

theorem Hash_hash_congr (hs : α → Int) {v w : ExportVertex α} (h : attrEq v w = true) :
    (v.Hash hs).hash = (w.Hash hs).hash := by
  rw [attrEq_iff] at h
  obtain ⟨h1, h2, h3, h4, h5, h6⟩ := h
  simp [ExportVertex.Hash, h1, h2, h3, h4, h5, h6]

theorem eq_eq_attrEq_of_mem (hs : α → Int) {eva : List (ExportVertex α)}
    (hc : HashesComputed hs eva) {a b : ExportVertex α}
    (ha : a ∈ eva) (hb : b ∈ eva) : ExportVertex.eq a b = attrEq a b := by
  by_cases h : attrEq a b = true
  · have hh : a.hash = b.hash := by
      rw [hc a ha, hc b hb]
      exact Hash_hash_congr hs h
    rw [h, eq_true_iff.mpr ⟨hh, h⟩]
  · have h2 : ExportVertex.eq a b ≠ true := fun hq => h (eq_true_iff.mp hq).2
    simp only [Bool.not_eq_true] at h h2
    rw [h, h2]

theorem hash_eq_of_attrEq (hs : α → Int) {eva : List (ExportVertex α)}
    (hc : HashesComputed hs eva) {a b : ExportVertex α}
    (ha : a ∈ eva) (hb : b ∈ eva) (h : attrEq a b = true) : a.hash = b.hash := by
  rw [hc a ha, hc b hb]
  exact Hash_hash_congr hs h


theorem testBit_of_between {t m : Nat} (h1 : 2 ^ t ≤ m) (h2 : m < 2 ^ (t + 1)) :
    m.testBit t = true := by
  rw [Nat.testBit_to_div_mod]
  have hd : m / 2 ^ t = 1 := by
    apply Nat.div_eq_of_lt_le (by simpa using h1)
    rw [pow_succ] at h2
    omega
  simp [hd]

theorem pow2_and_pred (t : Nat) : 2 ^ t &&& (2 ^ t - 1) = 0 := by
  apply Nat.eq_of_testBit_eq
  intro i
  rw [Nat.testBit_land, Nat.testBit_two_pow, Nat.testBit_two_pow_sub_one, Nat.zero_testBit]
  by_cases h : t = i
  · subst h
    simp
  · simp [h]

theorem ldiff_le (m a : Nat) : Nat.ldiff m a ≤ m := by
  apply Nat.le_of_testBit
  intro i hi
  rw [Nat.testBit_ldiff] at hi
  simp only [Bool.and_eq_true] at hi
  exact hi.1

theorem roundDownPow2_spec : ∀ b : Nat, 0 < b →
    ∃ k, roundDownPow2 b = 2 ^ k ∧ 2 ^ k ≤ b ∧ b < 2 ^ (k + 1) := by
  intro b
  induction b using Nat.strong_induction_on with
  | _ b ih =>
    intro hb
    rw [roundDownPow2]
    by_cases hz : b &&& (b - 1) = 0
    · simp only [hz, if_pos rfl]
      refine ⟨b.log2, ?_, Nat.log2_self_le hb.ne.symm, Nat.lt_log2_self⟩
      by_contra hne
      have hgt : 2 ^ b.log2 < b :=
        lt_of_le_of_ne (Nat.log2_self_le hb.ne.symm) (fun h => hne h.symm)
      have hb1 : (b - 1).testBit b.log2 = true := by
        apply testBit_of_between (by omega)
        have := Nat.lt_log2_self (n := b)
        omega
      have hb0 : b.testBit b.log2 = true :=
        testBit_of_between (Nat.log2_self_le hb.ne.symm) Nat.lt_log2_self
      have : (b &&& (b - 1)).testBit b.log2 = true := by
        rw [Nat.testBit_land, hb0, hb1]
        rfl
      rw [hz, Nat.zero_testBit] at this
      exact Bool.false_ne_true this
    · simp only [hz, if_neg]
      have hle : b &&& (b - 1) ≤ b - 1 := Nat.and_le_right
      have hlt : b &&& (b - 1) < b := by omega
      have hpos : 0 < b &&& (b - 1) := Nat.pos_of_ne_zero hz
      obtain ⟨k, hk1, hk2, hk3⟩ := ih _ hlt hpos
      refine ⟨k, hk1, by omega, ?_⟩
      -- b is not a power of two, so bit log2 b survives in b &&& (b - 1)
      have hne : b ≠ 2 ^ b.log2 := by
        intro h
        apply hz
        rw [h]
        exact pow2_and_pred _
      have hgt : 2 ^ b.log2 < b :=
        lt_of_le_of_ne (Nat.log2_self_le hb.ne.symm) (fun h => hne h.symm)
      have hb1 : (b - 1).testBit b.log2 = true := by
        apply testBit_of_between (by omega)
        have := Nat.lt_log2_self (n := b)
        omega
      have hb0 : b.testBit b.log2 = true :=
        testBit_of_between (Nat.log2_self_le hb.ne.symm) Nat.lt_log2_self
      have hbit : (b &&& (b - 1)).testBit b.log2 = true := by
        rw [Nat.testBit_land, hb0, hb1]
        rfl
      have hge : 2 ^ b.log2 ≤ b &&& (b - 1) := by
        apply Nat.le_of_testBit
        intro i hi
        rw [Nat.testBit_two_pow] at hi
        have : b.log2 = i := by simpa using hi
        rwa [← this]
      have hlog : b.log2 < k + 1 := by
        have h2 : 2 ^ b.log2 < 2 ^ (k + 1) := lt_of_le_of_lt hge hk3
        exact (Nat.pow_lt_pow_iff_right (by omega)).mp h2
      have := Nat.lt_log2_self (n := b)
      calc b < 2 ^ (b.log2 + 1) := Nat.lt_log2_self
        _ ≤ 2 ^ (k + 1) := Nat.pow_le_pow_right (by omega) (by omega)

theorem bucketCountOf_pos (n : Nat) : 0 < bucketCountOf n := by
  unfold bucketCountOf
  by_cases h : n >>> 3 > 1
  · simp only [h, if_pos]
    obtain ⟨k, hk, -, -⟩ := roundDownPow2_spec (n >>> 3) (by omega)
    rw [hk]
    exact Nat.pos_pow_of_pos k (by omega)
  · simp [h]

theorem land_mask_nonneg (h : Int) (m : Nat) : 0 ≤ Int.land h ((m : Nat) : Int) := by
  cases h with
  | ofNat a => exact Int.ofNat_nonneg _
  | negSucc a => exact Int.ofNat_nonneg _

theorem land_mask_le (h : Int) (m : Nat) : Int.land h ((m : Nat) : Int) ≤ (m : Int) := by
  cases h with
  | ofNat a =>
      show (((a &&& m : Nat) : Int)) ≤ (m : Int)
      exact Int.ofNat_le.mpr Nat.and_le_right
  | negSucc a =>
      show (((Nat.ldiff m a : Nat) : Int)) ≤ (m : Int)
      exact Int.ofNat_le.mpr (ldiff_le m a)

theorem bucketIndex_lt (h : Int) {bc : Nat} (hbc : 0 < bc) : bucketIndex bc h < bc := by
  have hm : ((bc : Int) - 1) = ((bc - 1 : Nat) : Int) := by omega
  rw [bucketIndex, hm]
  have h1 := land_mask_le h (bc - 1)
  have h2 := land_mask_nonneg h (bc - 1)
  omega

end BlenderExporter

namespace BlenderExporter

theorem getD_set_self {β : Type} {l : List β} {i : Nat} (h : i < l.length) {a d : β} :
    (l.set i a).getD i d = a := by
  rw [List.getD_eq_getElem?_getD, List.getElem?_set]
  simp [h]

theorem getD_set_ne {β : Type} {l : List β} {i j : Nat} (h : i ≠ j) {a d : β} :
    (l.set i a).getD j d = l.getD j d := by
  rw [List.getD_eq_getElem?_getD, List.getElem?_set, if_neg h, ← List.getD_eq_getElem?_getD]

theorem getD_mem_of_lt {β : Type} {l : List β} {j : Nat} (h : j < l.length) (d : β) :
    l.getD j d ∈ l := by
  rw [List.getD_eq_getElem l d h]
  exact List.getElem_mem h

theorem getD_map_of_lt {α : Type} [DecidableEq α] [Inhabited α]
    (g : Nat → ExportVertex α) {L : List Nat} {k : Nat} (h : k < L.length) :
    (L.map g).getD k default = g (L.getD k 0) := by
  rw [List.getD_eq_getElem _ _ (by simpa using h), List.getD_eq_getElem _ _ h]
  exact List.getElem_map g

variable {α : Type} [DecidableEq α] [Inhabited α]

theorem firstOcc_iff {eva : List (ExportVertex α)} {j : Nat} :
    firstOcc eva j = true ↔
      ∀ j2 < j, attrEq (eva.getD j2 default) (eva.getD j default) = false := by
  rw [firstOcc, List.all_eq_true]
  constructor
  · intro h j2 hj2
    have := h j2 (List.mem_range.mpr hj2)
    simpa using this
  · intro h j2 hj2
    simpa using h j2 (List.mem_range.mp hj2)

theorem firstOcc_false_iff {eva : List (ExportVertex α)} {j : Nat} :
    firstOcc eva j = false ↔
      ∃ j2 < j, attrEq (eva.getD j2 default) (eva.getD j default) = true := by
  rw [Bool.eq_false_iff, Ne, firstOcc_iff]
  push_neg
  constructor
  · rintro ⟨j2, hj2, hne⟩
    exact ⟨j2, hj2, Bool.ne_false_iff.mp hne⟩
  · rintro ⟨j2, hj2, htrue⟩
    exact ⟨j2, hj2, fun hf => by rw [htrue] at hf; cases hf⟩

theorem exists_firstOcc_rep (eva : List (ExportVertex α)) :
    ∀ j, ∃ j0 ≤ j, firstOcc eva j0 = true ∧
      attrEq (eva.getD j0 default) (eva.getD j default) = true := by
  intro j
  induction j using Nat.strong_induction_on with
  | _ j ih =>
    by_cases h : firstOcc eva j = true
    · exact ⟨j, le_rfl, h, attrEq_refl _⟩
    · rw [Bool.not_eq_true, firstOcc_false_iff] at h
      obtain ⟨j2, hj2, heq⟩ := h
      obtain ⟨j0, hle, hfo, hattr⟩ := ih j2 hj2
      exact ⟨j0, by omega, hfo, attrEq_trans hattr heq⟩

theorem mem_occList {eva : List (ExportVertex α)} {i j : Nat} :
    j ∈ occList eva i ↔ j < i ∧ firstOcc eva j = true := by
  rw [occList, List.mem_filter, List.mem_range]

theorem occList_succ_pos {eva : List (ExportVertex α)} {i : Nat}
    (h : firstOcc eva i = true) : occList eva (i + 1) = occList eva i ++ [i] := by
  rw [occList, List.range_succ, List.filter_append, occList]
  simp [h]

theorem occList_succ_neg {eva : List (ExportVertex α)} {i : Nat}
    (h : firstOcc eva i = false) : occList eva (i + 1) = occList eva i := by
  rw [occList, List.range_succ, List.filter_append, occList]
  simp [h]

theorem occList_pairwise_lt (eva : List (ExportVertex α)) (i : Nat) :
    List.Pairwise (· < ·) (occList eva i) :=
  List.Pairwise.sublist (List.filter_sublist _) (List.pairwise_lt_range i)

theorem firstMatch_map (eva : List (ExportVertex α)) (ev : ExportVertex α) :
    ∀ L : List Nat,
      firstMatch (L.map (fun j => eva.getD j default)) ev = firstIdxMatch eva ev L := by
  intro L
  induction L with
  | nil => rfl
  | cons a rest ih =>
      simp only [List.map_cons, firstMatch, firstIdxMatch]
      rw [ih]

theorem firstIdxMatch_none (eva : List (ExportVertex α)) (ev : ExportVertex α) :
    ∀ L : List Nat,
      L.find? (fun j => attrEq (eva.getD j default) ev) = none →
      firstIdxMatch eva ev L = none := by
  intro L
  induction L with
  | nil => intro _; rfl
  | cons j rest ih =>
      intro h
      rw [List.find?_eq_none] at h
      have hj : attrEq (eva.getD j default) ev = false := by
        have := h j (by simp)
        exact Bool.eq_false_iff.mpr this
      simp only [firstIdxMatch, hj, Bool.false_eq_true, if_false]
      rw [ih (List.find?_eq_none.mpr (fun x hx => h x (by simp [hx])))]
      rfl

theorem firstIdxMatch_some (eva : List (ExportVertex α)) (ev : ExportVertex α) :
    ∀ (L : List Nat) (j : Nat),
      L.find? (fun j2 => attrEq (eva.getD j2 default) ev) = some j →
      ∃ k, firstIdxMatch eva ev L = some k ∧ k < L.length ∧ L.getD k 0 = j := by
  intro L
  induction L with
  | nil => intro j h; simp [List.find?] at h
  | cons a rest ih =>
      intro j h
      by_cases ha : attrEq (eva.getD a default) ev = true
      · rw [List.find?_cons_of_pos (p := fun j2 => attrEq (eva.getD j2 default) ev) rest ha] at h
        have : a = j := by injection h
        subst this
        exact ⟨0, by simp only [firstIdxMatch, ha, if_true], by simp, rfl⟩
      · rw [List.find?_cons_of_neg (p := fun j2 => attrEq (eva.getD j2 default) ev) rest ha] at h
        obtain ⟨k, hk1, hk2, hk3⟩ := ih j h
        have ha2 : attrEq (eva.getD a default) ev = false := Bool.eq_false_iff.mpr ha
        refine ⟨k + 1, ?_, by simp only [List.length_cons]; omega, by simpa using hk3⟩
        simp only [firstIdxMatch, ha2, Bool.false_eq_true, if_false, hk1]
        rfl

end BlenderExporter

namespace BlenderExporter

variable {α : Type} [DecidableEq α] [Inhabited α]

theorem specAt_zero (eva : List (ExportVertex α)) : specAt eva 0 = ([], []) := rfl

theorem specAt_succ (eva : List (ExportVertex α)) {i : Nat} (h : i < eva.length) :
    specAt eva (i + 1) = specUnifyStep (specAt eva i) (eva.getD i default) := by
  rw [specAt, List.take_succ, List.getElem?_eq_getElem h]
  rw [List.foldl_append]
  rw [specAt, List.getD_eq_getElem eva default h]
  rfl

theorem specUnifyStep_none {acc : List (ExportVertex α) × List Nat} {ev : ExportVertex α}
    (h : firstMatch acc.1 ev = none) :
    specUnifyStep acc ev = (acc.1 ++ [ev], acc.2 ++ [acc.1.length]) := by
  rw [specUnifyStep, h]

theorem specUnifyStep_some {acc : List (ExportVertex α) × List Nat} {ev : ExportVertex α}
    {k : Nat} (h : firstMatch acc.1 ev = some k) :
    specUnifyStep acc ev = (acc.1, acc.2 ++ [k]) := by
  rw [specUnifyStep, h]

theorem specAt_inv (eva : List (ExportVertex α)) : ∀ i, i ≤ eva.length →
    (specAt eva i).1 = (occList eva i).map (fun j => eva.getD j default) ∧
    (specAt eva i).2.length = i ∧
    (∀ k, k < (occList eva i).length →
      (specAt eva i).2.getD ((occList eva i).getD k 0) 0 = k) ∧
    (∀ j, j < i → (specAt eva i).2.getD j 0 < (specAt eva i).1.length) ∧
    (∀ j, j < i →
      attrEq ((specAt eva i).1.getD ((specAt eva i).2.getD j 0) default)
        (eva.getD j default) = true) := by
  intro i
  induction i with
  | zero =>
      intro _
      refine ⟨rfl, rfl, ?_, ?_, ?_⟩ <;> intro k hk <;> simp [occList] at hk
  | succ i ih =>
      intro hlen
      have hi : i < eva.length := by omega
      obtain ⟨ih1, ih2, ih3, ih4, ih5⟩ := ih (by omega)
      have hulen : (specAt eva i).1.length = (occList eva i).length := by
        rw [ih1, List.length_map]
      by_cases hfo : firstOcc eva i = true
      · -- fresh vertex
        have hnone : firstMatch (specAt eva i).1 (eva.getD i default) = none := by
          rw [ih1, firstMatch_map]
          apply firstIdxMatch_none
          rw [List.find?_eq_none]
          intro j hj
          rw [mem_occList] at hj
          have hf := firstOcc_iff.mp hfo j hj.1
          intro hq
          rw [hq] at hf
          cases hf
        have hstep : specAt eva (i + 1) =
            ((specAt eva i).1 ++ [eva.getD i default],
             (specAt eva i).2 ++ [(specAt eva i).1.length]) := by
          rw [specAt_succ eva hi, specUnifyStep_none hnone]
        have h1 : (specAt eva (i + 1)).1 = (specAt eva i).1 ++ [eva.getD i default] := by
          rw [hstep]
        have h2 : (specAt eva (i + 1)).2 =
            (specAt eva i).2 ++ [(specAt eva i).1.length] := by
          rw [hstep]
        have hocc : occList eva (i + 1) = occList eva i ++ [i] := occList_succ_pos hfo
        refine ⟨?_, ?_, ?_, ?_, ?_⟩
        · rw [h1, hocc, List.map_append, ih1, List.map_cons, List.map_nil]
        · rw [h2, List.length_append, ih2]
          rfl
        · intro k hk
          rw [hocc, List.length_append, List.length_cons, List.length_nil] at hk
          rw [h2, hocc]
          by_cases hk2 : k < (occList eva i).length
          · rw [List.getD_append _ _ _ _ hk2]
            have hpos : (occList eva i).getD k 0 < i :=
              (mem_occList.mp (getD_mem_of_lt hk2 0)).1
            rw [List.getD_append _ _ _ _
              (show (occList eva i).getD k 0 < (specAt eva i).2.length by omega)]
            exact ih3 k hk2
          · have hkeq : k = (occList eva i).length := by omega
            rw [List.getD_append_right (occList eva i) [i] 0 k (by omega)]
            rw [hkeq, Nat.sub_self, List.getD_cons_zero]
            rw [List.getD_append_right _ _ _ _ (by omega : (specAt eva i).2.length ≤ i)]
            rw [show i - (specAt eva i).2.length = 0 by omega, List.getD_cons_zero]
            rw [hulen]
        · intro j hj
          rw [h1, h2, List.length_append, List.length_cons, List.length_nil]
          by_cases hj2 : j < i
          · rw [List.getD_append _ _ _ _ (show j < (specAt eva i).2.length by omega)]
            have := ih4 j hj2
            omega
          · have hje : j = i := by omega
            rw [hje]
            rw [List.getD_append_right _ _ _ _ (by omega : (specAt eva i).2.length ≤ i)]
            rw [show i - (specAt eva i).2.length = 0 by omega, List.getD_cons_zero]
            omega
        · intro j hj
          rw [h1, h2]
          by_cases hj2 : j < i
          · rw [List.getD_append _ _ _ _ (show j < (specAt eva i).2.length by omega)]
            have hlt := ih4 j hj2
            rw [List.getD_append _ _ _ _ hlt]
            exact ih5 j hj2
          · have hje : j = i := by omega
            rw [hje]
            rw [List.getD_append_right _ _ _ _ (by omega : (specAt eva i).2.length ≤ i)]
            rw [show i - (specAt eva i).2.length = 0 by omega, List.getD_cons_zero]
            rw [List.getD_append_right _ _ _ _ le_rfl, Nat.sub_self, List.getD_cons_zero]
            exact attrEq_refl _
      · -- duplicate vertex
        have hfo2 : firstOcc eva i = false := Bool.eq_false_iff.mpr hfo
        obtain ⟨j0, hj0le, hj0fo, hj0eq⟩ := exists_firstOcc_rep eva i
        have hj0lt : j0 < i := by
          rcases Nat.lt_or_ge j0 i with h | h
          · exact h
          · have heq : j0 = i := by omega
            rw [heq, hfo2] at hj0fo
            cases hj0fo
        have hmem : j0 ∈ occList eva i := mem_occList.mpr ⟨hj0lt, hj0fo⟩
        have hsome : ((occList eva i).find?
            (fun j2 => attrEq (eva.getD j2 default) (eva.getD i default))).isSome = true := by
          rw [List.find?_isSome]
          exact ⟨j0, hmem, hj0eq⟩
        obtain ⟨jstar, hfind⟩ := Option.isSome_iff_exists.mp hsome
        obtain ⟨k, hk1, hk2, hk3⟩ := firstIdxMatch_some eva (eva.getD i default) _ jstar hfind
        have hsome2 : firstMatch (specAt eva i).1 (eva.getD i default) = some k := by
          rw [ih1, firstMatch_map]
          exact hk1
        have hstep : specAt eva (i + 1) = ((specAt eva i).1, (specAt eva i).2 ++ [k]) := by
          rw [specAt_succ eva hi, specUnifyStep_some hsome2]
        have h1 : (specAt eva (i + 1)).1 = (specAt eva i).1 := by rw [hstep]
        have h2 : (specAt eva (i + 1)).2 = (specAt eva i).2 ++ [k] := by rw [hstep]
        have hocc : occList eva (i + 1) = occList eva i := occList_succ_neg hfo2
        refine ⟨?_, ?_, ?_, ?_, ?_⟩
        · rw [h1, hocc, ih1]
        · rw [h2, List.length_append, ih2]
          rfl
        · intro k2 hk2b
          rw [hocc] at hk2b ⊢
          rw [h2]
          have hpos : (occList eva i).getD k2 0 < i :=
            (mem_occList.mp (getD_mem_of_lt hk2b 0)).1
          rw [List.getD_append _ _ _ _
            (show (occList eva i).getD k2 0 < (specAt eva i).2.length by omega)]
          exact ih3 k2 hk2b
        · intro j hj
          rw [h1, h2]
          by_cases hj2 : j < i
          · rw [List.getD_append _ _ _ _ (show j < (specAt eva i).2.length by omega)]
            exact ih4 j hj2
          · have hje : j = i := by omega
            rw [hje]
            rw [List.getD_append_right _ _ _ _ (by omega : (specAt eva i).2.length ≤ i)]
            rw [show i - (specAt eva i).2.length = 0 by omega, List.getD_cons_zero]
            omega
        · intro j hj
          rw [h1, h2]
          by_cases hj2 : j < i
          · rw [List.getD_append _ _ _ _ (show j < (specAt eva i).2.length by omega)]
            exact ih5 j hj2
          · have hje : j = i := by omega
            rw [hje]
            rw [List.getD_append_right _ _ _ _ (by omega : (specAt eva i).2.length ≤ i)]
            rw [show i - (specAt eva i).2.length = 0 by omega, List.getD_cons_zero]
            rw [ih1, getD_map_of_lt _ hk2, hk3]
            have hq := List.find?_some hfind
            exact hq

end BlenderExporter

namespace BlenderExporter

variable {α : Type} [DecidableEq α] [Inhabited α]

theorem find?_congr_mem {β : Type} {p q : β → Bool} :
    ∀ {l : List β}, (∀ a ∈ l, p a = q a) → l.find? p = l.find? q := by
  intro l
  induction l with
  | nil => intro _; rfl
  | cons a rest ih =>
      intro h
      have ha := h a (by simp)
      by_cases hp : p a = true
      · rw [List.find?_cons_of_pos rest hp, List.find?_cons_of_pos rest (ha ▸ hp)]
      · rw [List.find?_cons_of_neg rest hp, List.find?_cons_of_neg rest (ha ▸ hp)]
        exact ih (fun x hx => h x (by simp [hx]))

theorem FindExportVertex_eq_find? (eva : List (ExportVertex α)) (v : ExportVertex α) :
    ∀ L : List Nat,
      FindExportVertex L eva v =
        (match L.find? (fun j => (eva.getD j default).eq v) with
          | some j => (j : Int)
          | none => -1) := by
  intro L
  induction L with
  | nil => rfl
  | cons a rest ih =>
      simp only [FindExportVertex]
      by_cases ha : (eva.getD a default).eq v = true
      · rw [if_pos ha, List.find?_cons_of_pos (p := fun j => (eva.getD j default).eq v) rest ha]
      · rw [if_neg ha, List.find?_cons_of_neg (p := fun j => (eva.getD j default).eq v) rest ha,
          ih]

theorem unifyStep_of_find_none {eva : List (ExportVertex α)} {bc : Nat} {s : UnifyState α}
    {i : Nat}
    (h : (s.hashTable.getD (bucketIndex bc ((eva.getD i default).hash)) []).find?
      (fun j => (eva.getD j default).eq (eva.getD i default)) = none) :
    unifyStep eva bc s i =
      { hashTable := s.hashTable.set (bucketIndex bc ((eva.getD i default).hash))
          (s.hashTable.getD (bucketIndex bc ((eva.getD i default).hash)) [] ++ [i]),
        unifiedVertexArray := s.unifiedVertexArray ++ [eva.getD i default],
        indexTable := s.indexTable ++ [s.unifiedVertexArray.length] } := by
  have hF : FindExportVertex
      (s.hashTable.getD (bucketIndex bc ((eva.getD i default).hash)) []) eva
      (eva.getD i default) = -1 := by
    rw [FindExportVertex_eq_find? eva (eva.getD i default), h]
  simp only [unifyStep, hF]
  rw [if_pos (by norm_num : (-1 : Int) < 0)]

theorem unifyStep_of_find_some {eva : List (ExportVertex α)} {bc : Nat} {s : UnifyState α}
    {i jstar : Nat}
    (h : (s.hashTable.getD (bucketIndex bc ((eva.getD i default).hash)) []).find?
      (fun j => (eva.getD j default).eq (eva.getD i default)) = some jstar) :
    unifyStep eva bc s i =
      { s with indexTable := s.indexTable ++ [s.indexTable.getD jstar 0] } := by
  have hF : FindExportVertex
      (s.hashTable.getD (bucketIndex bc ((eva.getD i default).hash)) []) eva
      (eva.getD i default) = (jstar : Int) := by
    rw [FindExportVertex_eq_find? eva (eva.getD i default), h]
  simp only [unifyStep, hF]
  rw [if_neg (by omega : ¬ ((jstar : Int) < 0)), Int.toNat_natCast]

theorem find?_occList_none_firstOcc {eva : List (ExportVertex α)} {i : Nat}
    (h : (occList eva i).find?
      (fun j => attrEq (eva.getD j default) (eva.getD i default)) = none) :
    firstOcc eva i = true := by
  by_contra hfo
  have hfo2 : firstOcc eva i = false := Bool.eq_false_iff.mpr hfo
  obtain ⟨j0, hj0le, hj0fo, hj0eq⟩ := exists_firstOcc_rep eva i
  have hj0lt : j0 < i := by
    rcases Nat.lt_or_ge j0 i with hlt | hge
    · exact hlt
    · have heq : j0 = i := by omega
      rw [heq, hfo2] at hj0fo
      cases hj0fo
  rw [List.find?_eq_none] at h
  exact h j0 (mem_occList.mpr ⟨hj0lt, hj0fo⟩) hj0eq

theorem stateAt_zero (eva : List (ExportVertex α)) :
    stateAt eva 0 =
      { hashTable := List.replicate (bucketCountOf eva.length) [],
        unifiedVertexArray := [], indexTable := [] } := rfl

theorem stateAt_succ (eva : List (ExportVertex α)) (i : Nat) :
    stateAt eva (i + 1) =
      unifyStep eva (bucketCountOf eva.length) (stateAt eva i) i := by
  rw [stateAt, List.range_succ, List.foldl_append]
  rfl

end BlenderExporter

namespace BlenderExporter

variable {α : Type} [DecidableEq α] [Inhabited α]

theorem stateAt_inv (hs : α → Int) (eva : List (ExportVertex α))
    (hc : HashesComputed hs eva) : ∀ i, i ≤ eva.length →
    (stateAt eva i).unifiedVertexArray = (specAt eva i).1 ∧
    (stateAt eva i).indexTable = (specAt eva i).2 ∧
    (stateAt eva i).hashTable.length = bucketCountOf eva.length ∧
    (∀ b, b < bucketCountOf eva.length →
      (stateAt eva i).hashTable.getD b [] =
        (occList eva i).filter
          (fun j => bucketIndex (bucketCountOf eva.length) ((eva.getD j default).hash) == b)) := by
  intro i
  induction i with
  | zero =>
      refine fun _ => ⟨rfl, rfl, List.length_replicate _ _, ?_⟩
      intro b hb
      rw [stateAt_zero]
      show (List.replicate (bucketCountOf eva.length) ([] : List Nat)).getD b [] = _
      rw [List.getD_eq_getElem _ _ (by simpa using hb), List.getElem_replicate]
      rfl
  | succ i ih =>
      intro hlen
      have hi : i < eva.length := by omega
      obtain ⟨ih1, ih2, ih3, ih4⟩ := ih (by omega)
      obtain ⟨sp1, sp2, sp3, sp4, sp5⟩ := specAt_inv eva i (by omega)
      have hbcpos : 0 < bucketCountOf eva.length := bucketCountOf_pos _
      have hbstar : bucketIndex (bucketCountOf eva.length) ((eva.getD i default).hash) <
          bucketCountOf eva.length := bucketIndex_lt _ hbcpos
      have hmem_i : eva.getD i default ∈ eva := getD_mem_of_lt hi default
      -- scanning the hash bucket finds exactly what a scan of all first
      -- occurrences finds
      have hfindchain :
          ((stateAt eva i).hashTable.getD
              (bucketIndex (bucketCountOf eva.length) ((eva.getD i default).hash)) []).find?
            (fun j => (eva.getD j default).eq (eva.getD i default)) =
          (occList eva i).find?
            (fun j => attrEq (eva.getD j default) (eva.getD i default)) := by
        rw [ih4 _ hbstar, List.find?_filter]
        apply find?_congr_mem
        intro j hj
        have hjlt : j < i := (mem_occList.mp hj).1
        have hjm : eva.getD j default ∈ eva := getD_mem_of_lt (by omega) default
        have heq : (eva.getD j default).eq (eva.getD i default) =
            attrEq (eva.getD j default) (eva.getD i default) :=
          eq_eq_attrEq_of_mem hs hc hjm hmem_i
        rw [heq]
        by_cases hA : attrEq (eva.getD j default) (eva.getD i default) = true
        · have hhash : (eva.getD j default).hash = (eva.getD i default).hash :=
            hash_eq_of_attrEq hs hc hjm hmem_i hA
          have hpB : (bucketIndex (bucketCountOf eva.length) ((eva.getD j default).hash) ==
              bucketIndex (bucketCountOf eva.length) ((eva.getD i default).hash)) = true := by
            rw [hhash]
            exact beq_self_eq_true _
          rw [hA, hpB]
          rfl
        · have hA2 : attrEq (eva.getD j default) (eva.getD i default) = false :=
            Bool.eq_false_iff.mpr hA
          rw [hA2]
          simp only [Bool.false_eq_true, and_false, decide_False]
      cases hF : (occList eva i).find?
          (fun j => attrEq (eva.getD j default) (eva.getD i default)) with
      | none =>
          -- fresh vertex on both sides
          have hfo : firstOcc eva i = true := find?_occList_none_firstOcc hF
          have hstep := unifyStep_of_find_none (α := α)
            (s := stateAt eva i)
            (by rw [hfindchain, hF] :
              ((stateAt eva i).hashTable.getD
                  (bucketIndex (bucketCountOf eva.length)
                    ((eva.getD i default).hash)) []).find?
                (fun j => (eva.getD j default).eq (eva.getD i default)) = none)
          have hT : (stateAt eva (i + 1)).hashTable =
              (stateAt eva i).hashTable.set
                (bucketIndex (bucketCountOf eva.length) ((eva.getD i default).hash))
                ((stateAt eva i).hashTable.getD
                  (bucketIndex (bucketCountOf eva.length) ((eva.getD i default).hash)) []
                  ++ [i]) := by
            rw [stateAt_succ, hstep]
          have hU : (stateAt eva (i + 1)).unifiedVertexArray =
              (stateAt eva i).unifiedVertexArray ++ [eva.getD i default] := by
            rw [stateAt_succ, hstep]
          have hI : (stateAt eva (i + 1)).indexTable =
              (stateAt eva i).indexTable ++ [(stateAt eva i).unifiedVertexArray.length] := by
            rw [stateAt_succ, hstep]
          have hnone2 : firstMatch (specAt eva i).1 (eva.getD i default) = none := by
            rw [sp1, firstMatch_map]
            exact firstIdxMatch_none eva _ _ hF
          have hspec : specAt eva (i + 1) =
              ((specAt eva i).1 ++ [eva.getD i default],
               (specAt eva i).2 ++ [(specAt eva i).1.length]) := by
            rw [specAt_succ eva hi, specUnifyStep_none hnone2]
          have h1 : (specAt eva (i + 1)).1 = (specAt eva i).1 ++ [eva.getD i default] := by
            rw [hspec]
          have h2 : (specAt eva (i + 1)).2 =
              (specAt eva i).2 ++ [(specAt eva i).1.length] := by
            rw [hspec]
          have hocc : occList eva (i + 1) = occList eva i ++ [i] := occList_succ_pos hfo
          refine ⟨?_, ?_, ?_, ?_⟩
          · rw [hU, h1, ih1]
          · rw [hI, h2, ih1, ih2]
          · rw [hT, List.length_set, ih3]
          · intro b hb
            rw [hT, hocc, List.filter_append]
            by_cases hbeq : b = bucketIndex (bucketCountOf eva.length)
                ((eva.getD i default).hash)
            · rw [hbeq, getD_set_self (by rw [ih3]; exact hbstar)]
              rw [ih4 _ hbstar]
              have hpBi : (bucketIndex (bucketCountOf eva.length)
                  ((eva.getD i default).hash) ==
                  bucketIndex (bucketCountOf eva.length)
                    ((eva.getD i default).hash)) = true := beq_self_eq_true _
              simp only [List.filter_cons, hpBi, if_true, List.filter_nil]
            · rw [getD_set_ne (fun h => hbeq h.symm)]
              rw [ih4 b hb]
              have hpBi : (bucketIndex (bucketCountOf eva.length)
                  ((eva.getD i default).hash) == b) = false :=
                beq_eq_false_iff_ne.mpr (fun h => hbeq h.symm)
              simp only [List.filter_cons, hpBi, Bool.false_eq_true, if_false,
                List.filter_nil, List.append_nil]
      | some jstar =>
          -- duplicate on both sides
          obtain ⟨k, hk1, hk2, hk3⟩ := firstIdxMatch_some eva (eva.getD i default) _ jstar hF
          have hjmem : jstar ∈ occList eva i := List.mem_of_find?_eq_some hF
          have hjlt : jstar < i := (mem_occList.mp hjmem).1
          have hjeq : attrEq (eva.getD jstar default) (eva.getD i default) = true := by
            have hq := List.find?_some hF
            exact hq
          have hfo2 : firstOcc eva i = false :=
            firstOcc_false_iff.mpr ⟨jstar, hjlt, hjeq⟩
          have hstep := unifyStep_of_find_some (α := α)
            (s := stateAt eva i)
            (by rw [hfindchain]; exact hF :
              ((stateAt eva i).hashTable.getD
                  (bucketIndex (bucketCountOf eva.length)
                    ((eva.getD i default).hash)) []).find?
                (fun j => (eva.getD j default).eq (eva.getD i default)) = some jstar)
          have hT : (stateAt eva (i + 1)).hashTable = (stateAt eva i).hashTable := by
            rw [stateAt_succ, hstep]
          have hU : (stateAt eva (i + 1)).unifiedVertexArray =
              (stateAt eva i).unifiedVertexArray := by
            rw [stateAt_succ, hstep]
          have hI : (stateAt eva (i + 1)).indexTable =
              (stateAt eva i).indexTable ++ [(stateAt eva i).indexTable.getD jstar 0] := by
            rw [stateAt_succ, hstep]
          have hsome2 : firstMatch (specAt eva i).1 (eva.getD i default) = some k := by
            rw [sp1, firstMatch_map]
            exact hk1
          have hspec : specAt eva (i + 1) = ((specAt eva i).1, (specAt eva i).2 ++ [k]) := by
            rw [specAt_succ eva hi, specUnifyStep_some hsome2]
          have h1 : (specAt eva (i + 1)).1 = (specAt eva i).1 := by rw [hspec]
          have h2 : (specAt eva (i + 1)).2 = (specAt eva i).2 ++ [k] := by rw [hspec]
          have hocc : occList eva (i + 1) = occList eva i := occList_succ_neg hfo2
          have hval : (specAt eva i).2.getD jstar 0 = k := by
            have hr := sp3 k hk2
            rw [hk3] at hr
            exact hr
          refine ⟨?_, ?_, ?_, ?_⟩
          · rw [hU, h1, ih1]
          · rw [hI, h2, ih2, hval]
          · rw [hT, ih3]
          · intro b hb
            rw [hT, hocc]
            exact ih4 b hb

end BlenderExporter

namespace BlenderExporter

variable {α : Type} [DecidableEq α] [Inhabited α]

theorem specUnify_eq_specAt (eva : List (ExportVertex α)) :
    specUnify eva = specAt eva eva.length := by
  rw [specAt, List.take_length, specUnify]

theorem unify_eq_spec (hs : α → Int) (eva : List (ExportVertex α))
    (hc : HashesComputed hs eva) : UnifyVertices eva [] = specUnify eva := by
  obtain ⟨h1, h2, -, -⟩ := stateAt_inv hs eva hc eva.length le_rfl
  have hrepr : UnifyVertices eva [] =
      ((stateAt eva eva.length).unifiedVertexArray,
       (stateAt eva eva.length).indexTable) := rfl
  rw [hrepr, h1, h2, specUnify_eq_specAt]

/-- C1: for every expanded vertex array with computed hashes, unification
reconstructs the input: for all `i`, the unified vertex at `indexTable[i]`
compares `__eq__`-equal (hence attribute-equal) to `exportVertexArray[i]`. -/
theorem unified_reconstructs_input (hs : α → Int) (eva : List (ExportVertex α))
    (hc : HashesComputed hs eva) :
    ∀ i < eva.length,
      ExportVertex.eq
        ((UnifyVertices eva []).1.getD ((UnifyVertices eva []).2.getD i 0) default)
        (eva.getD i default) = true ∧
      attrEq ((UnifyVertices eva []).1.getD ((UnifyVertices eva []).2.getD i 0) default)
        (eva.getD i default) = true := by
  intro i hi
  rw [unify_eq_spec hs eva hc, specUnify_eq_specAt]
  obtain ⟨sp1, sp2, sp3, sp4, sp5⟩ := specAt_inv eva eva.length le_rfl
  have hattr := sp5 i hi
  have hidx : (specAt eva eva.length).2.getD i 0 < (specAt eva eva.length).1.length :=
    sp4 i hi
  have hulen : (specAt eva eva.length).1.length = (occList eva eva.length).length := by
    rw [sp1, List.length_map]
  have hidx2 : (specAt eva eva.length).2.getD i 0 < (occList eva eva.length).length := by
    omega
  have hentry : (specAt eva eva.length).1.getD ((specAt eva eva.length).2.getD i 0) default
      = eva.getD
          ((occList eva eva.length).getD ((specAt eva eva.length).2.getD i 0) 0) default := by
    rw [sp1, getD_map_of_lt _ hidx2]
  have hjlt : (occList eva eva.length).getD ((specAt eva eva.length).2.getD i 0) 0 <
      eva.length :=
    (mem_occList.mp (getD_mem_of_lt hidx2 0)).1
  refine ⟨?_, hattr⟩
  rw [hentry]
  rw [eq_eq_attrEq_of_mem hs hc (getD_mem_of_lt hjlt default) (getD_mem_of_lt hi default)]
  rw [hentry] at hattr
  exact hattr

/-- C2: the index table is well formed: it has one entry per input vertex
and every entry indexes into the unified vertex array. -/
theorem indexTable_wellformed (hs : α → Int) (eva : List (ExportVertex α))
    (hc : HashesComputed hs eva) :
    (UnifyVertices eva []).2.length = eva.length ∧
    ∀ i < eva.length,
      (UnifyVertices eva []).2.getD i 0 < (UnifyVertices eva []).1.length := by
  rw [unify_eq_spec hs eva hc, specUnify_eq_specAt]
  obtain ⟨-, sp2, -, sp4, -⟩ := specAt_inv eva eva.length le_rfl
  exact ⟨sp2, sp4⟩

/-- C3: minimality: no two distinct entries of the unified vertex array are
attribute-equal. -/
theorem unified_minimal (hs : α → Int) (eva : List (ExportVertex α))
    (hc : HashesComputed hs eva) :
    ∀ k1 k2, k1 < k2 → k2 < (UnifyVertices eva []).1.length →
      attrEq ((UnifyVertices eva []).1.getD k1 default)
        ((UnifyVertices eva []).1.getD k2 default) = false := by
  intro k1 k2 hk hk2
  rw [unify_eq_spec hs eva hc, specUnify_eq_specAt] at *
  obtain ⟨sp1, -, -, -, -⟩ := specAt_inv eva eva.length le_rfl
  rw [sp1] at hk2 ⊢
  rw [List.length_map] at hk2
  have hk1 : k1 < (occList eva eva.length).length := by omega
  rw [getD_map_of_lt _ hk1, getD_map_of_lt _ hk2]
  have hpl := occList_pairwise_lt eva eva.length
  rw [List.pairwise_iff_getElem] at hpl
  have hlt : (occList eva eva.length).getD k1 0 < (occList eva eva.length).getD k2 0 := by
    rw [List.getD_eq_getElem _ _ hk1, List.getD_eq_getElem _ _ hk2]
    exact hpl k1 k2 hk1 hk2 hk
  have hfo2 : firstOcc eva ((occList eva eva.length).getD k2 0) = true :=
    (mem_occList.mp (getD_mem_of_lt hk2 0)).2
  exact firstOcc_iff.mp hfo2 _ hlt

/-- C4: unification is exactly first-occurrence deduplication: the bucketed
algorithm agrees with the specification-level deduplicator, and the unified
array lists the first occurrences in traversal order. -/
theorem unify_first_occurrence_order (hs : α → Int) (eva : List (ExportVertex α))
    (hc : HashesComputed hs eva) :
    UnifyVertices eva [] = specUnify eva ∧
    (UnifyVertices eva []).1 =
      ((List.range eva.length).filter (firstOcc eva)).map (fun j => eva.getD j default) := by
  refine ⟨unify_eq_spec hs eva hc, ?_⟩
  rw [unify_eq_spec hs eva hc, specUnify_eq_specAt]
  obtain ⟨sp1, -, -, -, -⟩ := specAt_inv eva eva.length le_rfl
  rw [sp1]
  rfl

/-- Witness for C1 at a concrete duplicated array. -/
theorem unified_reconstructs_input_witness :
    ExportVertex.eq
      ((UnifyVertices sampleArray []).1.getD ((UnifyVertices sampleArray []).2.getD 2 0) default)
      (sampleArray.getD 2 default) = true ∧
    attrEq
      ((UnifyVertices sampleArray []).1.getD ((UnifyVertices sampleArray []).2.getD 2 0) default)
      (sampleArray.getD 2 default) = true :=
  unified_reconstructs_input (fun x => x) sampleArray (by decide) 2 (by decide)

/-- Witness for C2 at a concrete duplicated array. -/
theorem indexTable_wellformed_witness :
    (UnifyVertices sampleArray []).2.length = sampleArray.length ∧
    ∀ i < sampleArray.length,
      (UnifyVertices sampleArray []).2.getD i 0 < (UnifyVertices sampleArray []).1.length :=
  indexTable_wellformed (fun x => x) sampleArray (by decide)

/-- Witness for C3 at a concrete duplicated array. -/
theorem unified_minimal_witness :
    attrEq ((UnifyVertices sampleArray []).1.getD 0 default)
      ((UnifyVertices sampleArray []).1.getD 2 default) = false :=
  unified_minimal (fun x => x) sampleArray (by decide) 0 2 (by decide) (by decide)

/-- Witness for C4 at a concrete duplicated array. -/
theorem unify_first_occurrence_order_witness :
    UnifyVertices sampleArray [] = specUnify sampleArray ∧
    (UnifyVertices sampleArray []).1 =
      ((List.range sampleArray.length).filter (firstOcc sampleArray)).map
        (fun j => sampleArray.getD j default) :=
  unify_first_occurrence_order (fun x => x) sampleArray (by decide)

end BlenderExporter

namespace BlenderExporter

variable {α : Type} [DecidableEq α] [Inhabited α]

/-- C5 counterexample: two vertices that agree on every field `__eq__`
compares but differ in `vertexIndex` still compare equal, so equality is
not "every attribute listed in the data model compares equal". -/
theorem eq_ignores_vertexIndex_cex :
    ExportVertex.eq cexA cexB = true ∧
    ¬ (cexA.vertexIndex = cexB.vertexIndex ∧ cexA.faceIndex = cexB.faceIndex ∧
       cexA.position = cexB.position ∧ cexA.normal = cexB.normal ∧
       cexA.tangent = cexB.tangent ∧ cexA.color = cexB.color ∧
       cexA.texcoord0 = cexB.texcoord0 ∧ cexA.texcoord1 = cexB.texcoord1) := by
  decide

/-- C5 amended: two `ExportVertex` instances compare equal iff `hash` and
the six geometric attributes (position, normal, tangent, color, texcoord0,
texcoord1) all compare equal; `vertexIndex` and `faceIndex` are never
compared, and a hash collision between attribute-unequal vertices never
yields equality because every geometric attribute is fully compared. -/
theorem eq_iff_hash_and_attributes (a b : ExportVertex α) :
    ExportVertex.eq a b = true ↔
      (a.hash = b.hash ∧ a.position = b.position ∧ a.normal = b.normal ∧
       a.tangent = b.tangent ∧ a.color = b.color ∧ a.texcoord0 = b.texcoord0 ∧
       a.texcoord1 = b.texcoord1) := by
  rw [eq_true_iff, attrEq_iff]

/-- C6: `bucketCount` is 1 when `n >> 3 ≤ 1` and otherwise the largest
power of two not exceeding `n >> 3`; in particular it is always a positive
power of two. -/
theorem bucketCount_spec (n : Nat) :
    (0 < bucketCountOf n ∧ ∃ k, bucketCountOf n = 2 ^ k) ∧
    (n >>> 3 ≤ 1 → bucketCountOf n = 1) ∧
    (2 ≤ n >>> 3 →
      bucketCountOf n ≤ n >>> 3 ∧
      ∀ m, (∃ k, m = 2 ^ k) → m ≤ n >>> 3 → m ≤ bucketCountOf n) := by
  refine ⟨⟨bucketCountOf_pos n, ?_⟩, ?_, ?_⟩
  · simp only [bucketCountOf]
    by_cases h : n >>> 3 > 1
    · rw [if_pos h]
      obtain ⟨k, hk, -, -⟩ := roundDownPow2_spec (n >>> 3) (by omega)
      exact ⟨k, hk⟩
    · rw [if_neg h]
      exact ⟨0, rfl⟩
  · intro hle
    simp only [bucketCountOf]
    rw [if_neg (by omega)]
  · intro hge
    simp only [bucketCountOf]
    rw [if_pos (by omega)]
    obtain ⟨k, hk, hk2, hk3⟩ := roundDownPow2_spec (n >>> 3) (by omega)
    rw [hk]
    refine ⟨hk2, ?_⟩
    rintro m ⟨j, rfl⟩ hmle
    have hj : j < k + 1 := by
      have hlt := lt_of_le_of_lt hmle hk3
      exact (Nat.pow_lt_pow_iff_right (by omega)).mp hlt
    exact Nat.pow_le_pow_right (by omega) (by omega)

/-- Witness for C6 at `n = 100` (`100 >> 3 = 12`, largest power of two is 8). -/
theorem bucketCount_spec_witness :
    bucketCountOf 100 ≤ 100 >>> 3 ∧ 8 ≤ bucketCountOf 100 :=
  ⟨((bucketCount_spec 100).2.2 (by decide)).1,
   ((bucketCount_spec 100).2.2 (by decide)).2 8 ⟨3, rfl⟩ (by decide)⟩

/-- C7: `Hash` stores the polynomial accumulator with multiplier 21737 over
the scalar hashes of the components in the fixed order position.xyz,
normal.xyz, tangent.xyz, color.rgb, texcoord0.uv, texcoord1.uv; hence any
two vertices whose corresponding components hash equal get equal hashes. -/
theorem hash_polynomial (hs : α → Int) (v w : ExportVertex α)
    (h : hs v.position.x = hs w.position.x ∧ hs v.position.y = hs w.position.y ∧
         hs v.position.z = hs w.position.z ∧ hs v.normal.x = hs w.normal.x ∧
         hs v.normal.y = hs w.normal.y ∧ hs v.normal.z = hs w.normal.z ∧
         hs v.tangent.x = hs w.tangent.x ∧ hs v.tangent.y = hs w.tangent.y ∧
         hs v.tangent.z = hs w.tangent.z ∧ hs v.color.x = hs w.color.x ∧
         hs v.color.y = hs w.color.y ∧ hs v.color.z = hs w.color.z ∧
         hs v.texcoord0.u = hs w.texcoord0.u ∧ hs v.texcoord0.v = hs w.texcoord0.v ∧
         hs v.texcoord1.u = hs w.texcoord1.u ∧ hs v.texcoord1.v = hs w.texcoord1.v) :
    (v.Hash hs).hash =
      (((((((((((((((hs v.position.x * 21737 + hs v.position.y) * 21737 + hs v.position.z)
        * 21737 + hs v.normal.x) * 21737 + hs v.normal.y) * 21737 + hs v.normal.z)
        * 21737 + hs v.tangent.x) * 21737 + hs v.tangent.y) * 21737 + hs v.tangent.z)
        * 21737 + hs v.color.x) * 21737 + hs v.color.y) * 21737 + hs v.color.z)
        * 21737 + hs v.texcoord0.u) * 21737 + hs v.texcoord0.v)
        * 21737 + hs v.texcoord1.u) * 21737 + hs v.texcoord1.v) ∧
    (v.Hash hs).hash = (w.Hash hs).hash := by
  obtain ⟨h1, h2, h3, h4, h5, h6, h7, h8, h9, h10, h11, h12, h13, h14, h15, h16⟩ := h
  refine ⟨rfl, ?_⟩
  simp only [ExportVertex.Hash]
  rw [h1, h2, h3, h4, h5, h6, h7, h8, h9, h10, h11, h12, h13, h14, h15, h16]

/-- Witness for C7: two vertices with identical scalar components (differing
only in `vertexIndex`, which is not hashed) receive identical hashes. -/
theorem hash_polynomial_witness :
    ((sampleVertex 5 0).Hash (fun x => x)).hash =
      ((sampleVertex 5 1).Hash (fun x => x)).hash :=
  (hash_polynomial (fun x => x) (sampleVertex 5 0) (sampleVertex 5 1) (by decide)).2

/-- C10: the bucket selection `ev.hash & (bucketCount - 1)` is nonnegative
and below `bucketCount` for every integer hash, negative hashes included,
so the hash-table access of `UnifyVertices` is always in bounds. -/
theorem bucket_selection_in_bounds (h : Int) (n : Nat) :
    0 ≤ Int.land h ((bucketCountOf n : Int) - 1) ∧
    bucketIndex (bucketCountOf n) h < bucketCountOf n := by
  have hpos := bucketCountOf_pos n
  constructor
  · have hm : ((bucketCountOf n : Int) - 1) = ((bucketCountOf n - 1 : Nat) : Int) := by
      omega
    rw [hm]
    exact land_mask_nonneg h _
  · exact bucketIndex_lt h hpos

end BlenderExporter

namespace BlenderExporter

variable {α : Type} [DecidableEq α] [Inhabited α]

theorem nm_refl (arr : List (ExportVertex α)) : NormalsMatch arr arr :=
  ⟨rfl, fun _ => rfl⟩

theorem nm_trans {a3 a2 a1 : List (ExportVertex α)} (h32 : NormalsMatch a3 a2)
    (h21 : NormalsMatch a2 a1) : NormalsMatch a3 a1 :=
  ⟨h32.1.trans h21.1, fun p => (h32.2 p).trans (h21.2 p)⟩

theorem nm_set {arr : List (ExportVertex α)} {q : Nat} {e : ExportVertex α}
    (he : e.normal = (arr.getD q default).normal) :
    NormalsMatch (arr.set q e) arr := by
  refine ⟨List.length_set arr q e, fun p => ?_⟩
  by_cases hpq : q = p
  · subst hpq
    by_cases hq : q < arr.length
    · rw [getD_set_self hq, he]
    · rw [List.set_eq_of_length_le (by omega)]
  · rw [getD_set_ne hpq]

theorem nm_applyColorsTri (colorFace : List (ColorFaceData α)) (arr : List (ExportVertex α))
    (t : Nat) : NormalsMatch (applyColorsTri colorFace arr t) arr := by
  simp only [applyColorsTri]
  exact nm_trans (nm_set rfl) (nm_trans (nm_set rfl) (nm_set rfl))

theorem nm_applyColors (colorFace : List (ColorFaceData α)) (numTris : Nat)
    (arr : List (ExportVertex α)) : NormalsMatch (applyColors colorFace numTris arr) arr := by
  rw [applyColors]
  generalize List.range numTris = L
  induction L generalizing arr with
  | nil => exact nm_refl arr
  | cons t rest ih =>
      rw [List.foldl_cons]
      exact nm_trans (ih _) (nm_applyColorsTri colorFace arr t)

theorem nm_setTexcoords (mesh : Mesh α) (arr : List (ExportVertex α)) (vi li : Nat) :
    NormalsMatch (setTexcoords mesh arr vi li) arr := by
  simp only [setTexcoords]
  by_cases h : mesh.uv_layers.length > 1
  · rw [if_pos h]
    exact nm_set rfl
  · rw [if_neg h]
    exact nm_set rfl

theorem nm_applyUVsTri {mesh : Mesh α} {acc acc2 : List (ExportVertex α) × Nat}
    {tri : LoopTriangle} (h : applyUVsTri mesh acc tri = some acc2) :
    NormalsMatch acc2.1 acc.1 := by
  simp only [applyUVsTri] at h
  by_cases h3 : tri.loops.length = 3
  · rw [if_pos h3] at h
    injection h with h
    subst h
    generalize tri.loops = L
    generalize acc = a
    induction L generalizing a with
    | nil => exact nm_refl _
    | cons li rest ih =>
        rw [List.foldl_cons]
        exact nm_trans (ih _) (nm_setTexcoords mesh a.1 a.2 li)
  · rw [if_neg h3] at h
    cases h

theorem nm_applyUVsTris {mesh : Mesh α} :
    ∀ (tris : List LoopTriangle) (acc acc2 : List (ExportVertex α) × Nat),
      applyUVsTris mesh tris acc = some acc2 → NormalsMatch acc2.1 acc.1 := by
  intro tris
  induction tris with
  | nil =>
      intro acc acc2 h
      simp only [applyUVsTris] at h
      injection h with h
      subst h
      exact nm_refl _
  | cons tri rest ih =>
      intro acc acc2 h
      simp only [applyUVsTris] at h
      cases h1 : applyUVsTri mesh acc tri with
      | none => rw [h1] at h; cases h
      | some mid =>
          rw [h1] at h
          exact nm_trans (ih mid acc2 h) (nm_applyUVsTri h1)

theorem nm_applyUVs {mesh : Mesh α} {arr arr2 : List (ExportVertex α)}
    (h : applyUVs mesh arr = some arr2) : NormalsMatch arr2 arr := by
  simp only [applyUVs] at h
  by_cases hl : mesh.uv_layers.length > 0
  · rw [if_pos hl] at h
    cases h1 : applyUVsTris mesh mesh.loop_triangles (arr, 0) with
    | none => rw [h1] at h; cases h
    | some acc =>
        rw [h1] at h
        injection h with h
        subst h
        exact nm_applyUVsTris mesh.loop_triangles (arr, 0) acc h1
  · rw [if_neg hl] at h
    injection h with h
    subst h
    exact nm_refl _

theorem nm_map_Hash (hs : α → Int) (arr : List (ExportVertex α)) :
    NormalsMatch (arr.map (ExportVertex.Hash hs)) arr := by
  refine ⟨List.length_map arr _, fun p => ?_⟩
  by_cases hp : p < arr.length
  · rw [List.getD_eq_getElem _ _ (by simpa using hp), List.getD_eq_getElem _ _ hp]
    rw [List.getElem_map]
    rfl
  · rw [List.getD_eq_getElem?_getD, List.getD_eq_getElem?_getD]
    rw [List.getElem?_eq_none (by simpa using hp), List.getElem?_eq_none (by omega)]

end BlenderExporter

namespace BlenderExporter

variable {α : Type} [DecidableEq α] [Inhabited α]

theorem deindexFace_spec [Zero α] [One α] {mesh : Mesh α} {fi : Nat} {face : Polygon α}
    {evs : List (ExportVertex α)} (h : deindexFace mesh fi face = some evs) :
    evs.length = 3 ∧
    ∀ k < 3, (evs.getD k default).normal =
      (if face.use_smooth then
        (mesh.vertices.getD (face.vertices.getD k 0) default).normal
      else face.normal) := by
  simp only [deindexFace] at h
  by_cases h3 : face.vertices.length = 3
  · rw [if_pos h3] at h
    injection h with h
    subst h
    refine ⟨rfl, ?_⟩
    intro k hk
    match k, hk with
    | 0, _ => rfl
    | 1, _ => rfl
    | 2, _ => rfl
  · rw [if_neg h3] at h
    cases h

theorem deindexFaces_spec [Zero α] [One α] (mesh : Mesh α) :
    ∀ (faces : List (Polygon α)) (fi : Nat) (eva : List (ExportVertex α)) (mt : List Nat),
      deindexFaces mesh fi faces = some (eva, mt) →
      eva.length = 3 * faces.length ∧ mt.length = faces.length ∧
      (∀ j, j < faces.length → ∀ k, k < 3 →
        (eva.getD (3 * j + k) default).normal =
          (if (faces.getD j default).use_smooth then
            (mesh.vertices.getD ((faces.getD j default).vertices.getD k 0) default).normal
          else (faces.getD j default).normal)) := by
  intro faces
  induction faces with
  | nil =>
      intro fi eva mt h
      simp only [deindexFaces] at h
      injection h with h
      have h1 : eva = [] := (congrArg Prod.fst h).symm
      have h2 : mt = [] := (congrArg Prod.snd h).symm
      subst h1
      subst h2
      refine ⟨rfl, rfl, ?_⟩
      intro j hj
      rw [List.length_nil] at hj
      omega
  | cons face rest ih =>
      intro fi eva mt h
      simp only [deindexFaces] at h
      cases hd : deindexFace mesh fi face with
      | none => rw [hd] at h; cases h
      | some evs =>
          rw [hd] at h
          cases hr : deindexFaces mesh (fi + 1) rest with
          | none => rw [hr] at h; cases h
          | some pr =>
              rw [hr] at h
              injection h with h
              obtain ⟨hs1, hs2⟩ := deindexFace_spec hd
              obtain ⟨ih1, ih2, ih3⟩ := ih (fi + 1) pr.1 pr.2 (by rw [hr])
              have heva : eva = evs ++ pr.1 := by
                have := congrArg Prod.fst h
                exact this.symm
              have hmt : mt = face.material_index :: pr.2 := by
                have := congrArg Prod.snd h
                exact this.symm
              subst heva
              subst hmt
              refine ⟨?_, ?_, ?_⟩
              · rw [List.length_append, hs1, ih1, List.length_cons]
                omega
              · simp only [List.length_cons, ih2]
              · intro j hj k hk
                rw [List.length_cons] at hj
                cases j with
                | zero =>
                    rw [List.getD_append _ _ _ _ (by omega)]
                    have := hs2 k hk
                    simpa using this
                | succ j2 =>
                    rw [List.getD_append_right _ _ _ _ (by rw [hs1]; omega)]
                    rw [hs1]
                    have harith : 3 * (j2 + 1) + k - 3 = 3 * j2 + k := by omega
                    rw [harith]
                    have := ih3 j2 (by omega) k hk
                    simpa using this

end BlenderExporter

namespace BlenderExporter

variable {α : Type} [DecidableEq α] [Inhabited α]

theorem DeindexMesh_normals [Zero α] [One α] (hs : α → Int) (mesh : Mesh α)
    {eva : List (ExportVertex α)} {mt : List Nat}
    (hd : DeindexMesh hs mesh = some (eva, mt)) :
    eva.length = 3 * mesh.polygons.length ∧
    (∀ j, j < mesh.polygons.length → ∀ k, k < 3 →
      (eva.getD (3 * j + k) default).normal =
        (if (mesh.polygons.getD j default).use_smooth then
          (mesh.vertices.getD
            ((mesh.polygons.getD j default).vertices.getD k 0) default).normal
        else (mesh.polygons.getD j default).normal)) := by
  simp only [DeindexMesh] at hd
  split at hd
  · cases hd
  rename_i eva0 mt0 h0
  split at hd
  · cases hd
  rename_i eva2 h2
  obtain ⟨d1, d2, d3⟩ := deindexFaces_spec mesh mesh.polygons 0 eva0 mt0 h0
  injection hd with hd
  have heva : eva = eva2.map (ExportVertex.Hash hs) :=
    (congrArg Prod.fst hd).symm
  have hnm : NormalsMatch eva eva0 := by
    rw [heva]
    refine nm_trans (nm_map_Hash hs eva2) (nm_trans (nm_applyUVs h2) ?_)
    by_cases hcol : mesh.vertex_colors.length > 0
    · rw [if_pos hcol]
      exact nm_applyColors _ _ _
    · rw [if_neg hcol]
      exact nm_refl _
  refine ⟨hnm.1.trans d1, ?_⟩
  intro j hj k hk
  rw [hnm.2 (3 * j + k)]
  exact d3 j hj k hk

/-- C8: for every face processed by `DeindexMesh`, when the face's smooth
flag is unset all three emitted corners carry the face normal, regardless
of the normals on the referenced mesh vertices; when it is set, each corner
carries the referenced vertex's own normal. -/
theorem flat_shading_normal_override [Zero α] [One α] (hs : α → Int) (mesh : Mesh α)
    (j : Nat) (hj : j < mesh.polygons.length) (eva : List (ExportVertex α)) (mt : List Nat)
    (hd : DeindexMesh hs mesh = some (eva, mt)) :
    ∀ k, k < 3 → (eva.getD (3 * j + k) default).normal =
      (if (mesh.polygons.getD j default).use_smooth then
        (mesh.vertices.getD
          ((mesh.polygons.getD j default).vertices.getD k 0) default).normal
      else (mesh.polygons.getD j default).normal) := by
  intro k hk
  exact (DeindexMesh_normals hs mesh hd).2 j hj k hk

/-- Witness for C8 at the concrete flat-shaded one-triangle mesh: all three
corner normals equal the face normal. -/
theorem flat_shading_normal_override_witness :
    ((flatEva.getD (3 * 0 + 0) default).normal =
      (if (flatMesh.polygons.getD 0 default).use_smooth then
        (flatMesh.vertices.getD
          ((flatMesh.polygons.getD 0 default).vertices.getD 0 0) default).normal
      else (flatMesh.polygons.getD 0 default).normal)) ∧
    ((flatEva.getD (3 * 0 + 1) default).normal =
      (if (flatMesh.polygons.getD 0 default).use_smooth then
        (flatMesh.vertices.getD
          ((flatMesh.polygons.getD 0 default).vertices.getD 1 0) default).normal
      else (flatMesh.polygons.getD 0 default).normal)) ∧
    ((flatEva.getD (3 * 0 + 2) default).normal =
      (if (flatMesh.polygons.getD 0 default).use_smooth then
        (flatMesh.vertices.getD
          ((flatMesh.polygons.getD 0 default).vertices.getD 2 0) default).normal
      else (flatMesh.polygons.getD 0 default).normal)) := by
  have h := flat_shading_normal_override (fun x => x) flatMesh 0 (by decide)
    flatEva flatMat (by rfl)
  exact ⟨h 0 (by decide), h 1 (by decide), h 2 (by decide)⟩

/-- C9: a mesh with zero faces deindexes to an empty expanded array and an
empty material table, and unifying the empty array yields an empty unified
array and an empty index table; neither function fails. -/
theorem empty_mesh_empty_output [Zero α] [One α] (hs : α → Int) (mesh : Mesh α)
    (hp : mesh.polygons = []) (ht : mesh.loop_triangles = []) :
    DeindexMesh hs mesh = some ([], []) ∧
    UnifyVertices (α := α) [] [] = ([], []) := by
  refine ⟨?_, rfl⟩
  have hcol : (if mesh.vertex_colors.length > 0 then
      applyColors (mesh.vertex_colors.getD 0 default).data
        mesh.loop_triangles.length ([] : List (ExportVertex α))
      else ([] : List (ExportVertex α))) = [] := by
    by_cases hc : mesh.vertex_colors.length > 0
    · rw [if_pos hc, ht]
      rfl
    · rw [if_neg hc]
  have huv : applyUVs mesh ([] : List (ExportVertex α)) = some [] := by
    simp only [applyUVs, ht, applyUVsTris]
    by_cases hu : mesh.uv_layers.length > 0
    · rw [if_pos hu]
    · rw [if_neg hu]
  simp only [DeindexMesh, hp, deindexFaces, hcol, huv]
  rfl

/-- Witness for C9 at a concrete zero-face mesh (which even has empty color
and UV layers present). -/
theorem empty_mesh_empty_output_witness :
    DeindexMesh (fun x => x) emptyMesh = some ([], []) ∧
    UnifyVertices (α := Int) [] [] = ([], []) :=
  empty_mesh_empty_output (fun x => x) emptyMesh rfl rfl

end BlenderExporter
